import Mathlib

/-!
# Verification of the gesture recognizers in `dollar_ocr`

This file gives a shallow embedding of the two recognizers of the repository,
`src/dollar_ocr/onedollar.js` (the $1 angle-search recognizer) and
`src/dollar_ocr/qdollar.js` (the $Q point-cloud recognizer), and proves or
refutes the frozen claims about them.

Two numeric models are used:

* `JNum`, rational numbers extended with `nan`, `+∞` and `-∞`, following the
  special-value rules of JavaScript number arithmetic (division by zero,
  `0 * Infinity = NaN`, `Math.min`/`Math.max` propagating `NaN`, …).  It is
  fully computable and is used for the claims about division-by-zero guarding
  and NaN/Infinity propagation in the scale steps.
* exact real numbers (`ℝ`), the usual idealisation of floating point for the
  algorithmic claims (resampling point counts, golden-section search,
  cloud-matching, score clamping).  Square roots force these definitions to be
  noncomputable; the loops of the source that are only externally bounded
  (`_resample`'s splice walk, `_distanceAtBestAngle`'s while loop) take an
  explicit fuel argument, and the theorems show that the fuel used by the
  embedding suffices on the inputs the claims are about.
-/

set_option maxHeartbeats 1000000

/-! ## JavaScript numbers with special values

`JNum` models a JavaScript number as either `nan`, one of the two infinities,
or an exact finite value.  Only the operations used by `_scaleTo`
(onedollar.js) and `_scale` (qdollar.js) are defined: subtraction,
multiplication, division, `Math.min` and `Math.max`. -/

inductive JNum where
  | nan : JNum
  | pinf : JNum
  | ninf : JNum
  | fin (q : ℚ) : JNum
deriving DecidableEq

namespace JNum

/-- Is this a finite (non-NaN, non-infinite) number? -/
def isFinite : JNum → Bool
  | fin _ => true
  | _ => false

/-- JavaScript subtraction `a - b` on numbers with special values. -/
def sub : JNum → JNum → JNum
  | nan, _ => nan
  | _, nan => nan
  | pinf, pinf => nan
  | pinf, _ => pinf
  | ninf, ninf => nan
  | ninf, _ => ninf
  | fin _, pinf => ninf
  | fin _, ninf => pinf
  | fin a, fin b => fin (a - b)

/-- JavaScript multiplication `a * b`; note `0 * Infinity = NaN`. -/
def mul : JNum → JNum → JNum
  | nan, _ => nan
  | _, nan => nan
  | pinf, pinf => pinf
  | pinf, ninf => ninf
  | ninf, pinf => ninf
  | ninf, ninf => pinf
  | pinf, fin b => if 0 < b then pinf else if b < 0 then ninf else nan
  | ninf, fin b => if 0 < b then ninf else if b < 0 then pinf else nan
  | fin a, pinf => if 0 < a then pinf else if a < 0 then ninf else nan
  | fin a, ninf => if 0 < a then ninf else if a < 0 then pinf else nan
  | fin a, fin b => fin (a * b)

/-- JavaScript division `a / b`; a nonzero finite number divided by zero gives
a signed infinity, and `0 / 0 = NaN`.  (Negative zero is not modelled; the
divisors arising in the embedded code are produced from `max - min` and are
`+0` when zero.) -/
def div : JNum → JNum → JNum
  | nan, _ => nan
  | _, nan => nan
  | pinf, pinf => nan
  | pinf, ninf => nan
  | ninf, pinf => nan
  | ninf, ninf => nan
  | pinf, fin b => if 0 ≤ b then pinf else ninf
  | ninf, fin b => if 0 ≤ b then ninf else pinf
  | fin _, pinf => fin 0
  | fin _, ninf => fin 0
  | fin a, fin b =>
    if b = 0 then (if a = 0 then nan else if 0 < a then pinf else ninf)
    else fin (a / b)

/-- JavaScript `Math.min`: `NaN` if either argument is `NaN`. -/
def jmin : JNum → JNum → JNum
  | nan, _ => nan
  | _, nan => nan
  | pinf, b => b
  | a, pinf => a
  | ninf, _ => ninf
  | _, ninf => ninf
  | fin a, fin b => fin (min a b)

/-- JavaScript `Math.max`: `NaN` if either argument is `NaN`. -/
def jmax : JNum → JNum → JNum
  | nan, _ => nan
  | _, nan => nan
  | ninf, b => b
  | a, ninf => a
  | pinf, _ => pinf
  | _, pinf => pinf
  | fin a, fin b => fin (max a b)

end JNum

/-- A 2-D point with JavaScript-number coordinates. -/
structure JPoint where
  x : JNum
  y : JNum
deriving DecidableEq

/-- The bounding box computed by onedollar.js `_boundingBox`: the folds start
from `minX = +Infinity`, `maxX = -Infinity` (and likewise for `y`), exactly as
in the source. -/
structure JBox where
  x : JNum
  y : JNum
  width : JNum
  height : JNum

/-- onedollar.js `_boundingBox(points)`. -/
def boundingBoxJ (points : List JPoint) : JBox :=
  let minX := points.foldl (fun m p => JNum.jmin m p.x) JNum.pinf
  let maxX := points.foldl (fun m p => JNum.jmax m p.x) JNum.ninf
  let minY := points.foldl (fun m p => JNum.jmin m p.y) JNum.pinf
  let maxY := points.foldl (fun m p => JNum.jmax m p.y) JNum.ninf
  ⟨minX, minY, JNum.sub maxX minX, JNum.sub maxY minY⟩

/-- onedollar.js `_scaleTo(points, size)`: each coordinate is rescaled by its
own axis factor `size / B.width` resp. `size / B.height`, with no guard
against a zero-width or zero-height bounding box. -/
def scaleToJ (points : List JPoint) (size : JNum) : List JPoint :=
  let B := boundingBoxJ points
  points.map fun p =>
    ⟨JNum.mul p.x (JNum.div size B.width), JNum.mul p.y (JNum.div size B.height)⟩

/-- qdollar.js `_scale(points)`: shifts by the minima and divides both axes by
`size = max(width, height)` (isotropic scale).  The stroke id of each point is
carried through unchanged; since the id plays no role in `_scale` it is
omitted from `JPoint` here. -/
def scaleQJ (points : List JPoint) : List JPoint :=
  let minX := points.foldl (fun m p => JNum.jmin m p.x) JNum.pinf
  let minY := points.foldl (fun m p => JNum.jmin m p.y) JNum.pinf
  let maxX := points.foldl (fun m p => JNum.jmax m p.x) JNum.ninf
  let maxY := points.foldl (fun m p => JNum.jmax m p.y) JNum.ninf
  let size := JNum.jmax (JNum.sub maxX minX) (JNum.sub maxY minY)
  points.map fun p =>
    ⟨JNum.div (JNum.sub p.x minX) size, JNum.div (JNum.sub p.y minY) size⟩

/-- A list of exact rational coordinates as JavaScript-number points (an input
all of whose coordinates are finite). -/
def toJPoints (l : List (ℚ × ℚ)) : List JPoint :=
  l.map fun p => ⟨JNum.fin p.1, JNum.fin p.2⟩

/-! ## Exact-real model of the `OneDollar` recognizer (onedollar.js)

Coordinates are exact reals.  `performance.now()` timing is not modelled, so a
recognition result is just the matched name and the similarity score. -/

noncomputable section

/-- A 2-D point of onedollar.js (internal `{x, y}` representation). -/
structure Pt where
  x : ℝ
  y : ℝ

/-- onedollar.js `_distance(p1, p2)`: Euclidean distance. -/
def dist' (p1 p2 : Pt) : ℝ :=
  Real.sqrt ((p1.x - p2.x) * (p1.x - p2.x) + (p1.y - p2.y) * (p1.y - p2.y))

/-- onedollar.js `_pathLength(points)`: sum of consecutive distances. -/
def pathLength : List Pt → ℝ
  | p :: q :: rest => dist' p q + pathLength (q :: rest)
  | _ => 0

/-- The point synthesized by `_resample` on the segment from `a` to `b` at
parameter `t`: `a + t * (b - a)` componentwise. -/
def lerp (a b : Pt) (t : ℝ) : Pt :=
  ⟨a.x + t * (b.x - a.x), a.y + t * (b.y - a.y)⟩

/-- The walk of onedollar.js `_resample`.  `prev` is the point the distance
`d` is measured from (`points[i-1]`, which after a splice is the freshly
synthesized point `q`), `rest` the points not yet walked, `D` the accumulated
distance and `acc` the `newPoints` array.  The source loop is bounded only by
the length of the array it splices into; here that external bound is an
explicit `fuel` argument (the caller passes enough fuel for every input with
positive path length, as proved below). -/
def resampleGo (I : ℝ) : ℕ → Pt → List Pt → ℝ → List Pt → List Pt
  | 0, _, _, _, acc => acc
  | _ + 1, _, [], _, acc => acc
  | fuel + 1, prev, p :: ps, D, acc =>
    let d := dist' prev p
    if I ≤ D + d then
      let q := lerp prev p ((I - D) / d)
      resampleGo I fuel q (p :: ps) 0 (acc ++ [q])
    else
      resampleGo I fuel p ps (D + d) acc

/-- onedollar.js `_resample(points, n)`. -/
def resample (points : List Pt) (n : ℕ) : List Pt :=
  match points with
  | [] => []
  | p0 :: rest =>
    let I := pathLength (p0 :: rest) / ((n : ℝ) - 1)
    let newPoints := resampleGo I ((p0 :: rest).length + n) p0 rest 0 [p0]
    if newPoints.length = n - 1 then newPoints ++ [rest.getLastD p0] else newPoints

/-- The final contents of the *input* array of `_resample` after the calls to
`points.splice(i, 0, q)`: the original points with every synthesized point
inserted at the position where it was spliced in.  This is the array the
caller of `check`/`add` handed over whenever `_convertPoints` returned its
argument unchanged (see `checkCallerArray`). -/
def resampleMutGo (I : ℝ) : ℕ → Pt → List Pt → ℝ → List Pt
  | 0, prev, rest, _ => prev :: rest
  | _ + 1, prev, [], _ => [prev]
  | fuel + 1, prev, p :: ps, D =>
    let d := dist' prev p
    if I ≤ D + d then
      let q := lerp prev p ((I - D) / d)
      prev :: resampleMutGo I fuel q (p :: ps) 0
    else
      prev :: resampleMutGo I fuel p ps (D + d)

/-- The input array of `_resample points n` after the in-place splices. -/
def resampleMut (points : List Pt) (n : ℕ) : List Pt :=
  match points with
  | [] => []
  | p0 :: rest =>
    let I := pathLength (p0 :: rest) / ((n : ℝ) - 1)
    resampleMutGo I ((p0 :: rest).length + n) p0 rest 0

/-- onedollar.js `_centroid(points)`. -/
def centroid (points : List Pt) : Pt :=
  ⟨(points.map Pt.x).sum / points.length, (points.map Pt.y).sum / points.length⟩

/-- JavaScript `Math.atan2(y, x)`. -/
def atan2 (y x : ℝ) : ℝ :=
  if 0 < x then Real.arctan (y / x)
  else if x < 0 then
    (if 0 ≤ y then Real.arctan (y / x) + Real.pi else Real.arctan (y / x) - Real.pi)
  else
    (if 0 < y then Real.pi / 2 else if y < 0 then -(Real.pi / 2) else 0)

/-- onedollar.js `_indicativeAngle(points)`: angle from the first point to the
centroid. -/
def indicativeAngle (points : List Pt) : ℝ :=
  match points with
  | [] => 0
  | p0 :: _ =>
    let c := centroid points
    atan2 (c.y - p0.y) (c.x - p0.x)

/-- onedollar.js `_rotateBy(points, radians)`: rotation about the centroid. -/
def rotateBy (points : List Pt) (radians : ℝ) : List Pt :=
  let c := centroid points
  let cosr := Real.cos radians
  let sinr := Real.sin radians
  points.map fun p =>
    ⟨(p.x - c.x) * cosr - (p.y - c.y) * sinr + c.x,
     (p.x - c.x) * sinr + (p.y - c.y) * cosr + c.y⟩

/-- onedollar.js `_boundingBox(points)` in the exact-real model (the special
values of the empty fold are studied in the `JNum` model above; in the claims
using this definition the point list is nonempty, and the fold below starts
from the first point instead). -/
def boundingBox (points : List Pt) : Pt × Pt :=
  match points with
  | [] => (⟨0, 0⟩, ⟨0, 0⟩)
  | p0 :: rest =>
    (⟨rest.foldl (fun m p => min m p.x) p0.x, rest.foldl (fun m p => min m p.y) p0.y⟩,
     ⟨rest.foldl (fun m p => max m p.x) p0.x, rest.foldl (fun m p => max m p.y) p0.y⟩)

/-- onedollar.js `_scaleTo(points, size)`: anisotropic scale by
`size / width` and `size / height`. -/
def scaleTo (points : List Pt) (size : ℝ) : List Pt :=
  let B := boundingBox points
  let width := B.2.x - B.1.x
  let height := B.2.y - B.1.y
  points.map fun p => ⟨p.x * (size / width), p.y * (size / height)⟩

/-- onedollar.js `_translateTo(points, pt)`: shift every point by the constant
offset `pt - centroid`. -/
def translateTo (points : List Pt) (pt : Pt) : List Pt :=
  let c := centroid points
  points.map fun p => ⟨p.x + pt.x - c.x, p.y + pt.y - c.y⟩

/-- onedollar.js `_vectorize(points)` (stored on templates, unused by
`check`). -/
def vectorize (points : List Pt) : List ℝ :=
  let vector := points.foldr (fun p v => p.x :: p.y :: v) []
  let magnitude := Real.sqrt ((points.map fun p => p.x * p.x + p.y * p.y).sum)
  vector.map fun v => v / magnitude

/-- A template of onedollar.js: name, normalized points, and the protractor
vector (stored but never read by `check`). -/
structure OneTemplate where
  Name : String
  Points : List Pt
  Vector : List ℝ

/-- onedollar.js `_pathDistance(pts1, pts2)`: mean index-aligned distance.
The source indexes `pts2[i]` for `i < pts1.length`; both callers pass
resampled paths of equal length.  Out-of-range indices yield the origin. -/
def pathDistance (pts1 pts2 : List Pt) : ℝ :=
  ((List.range pts1.length).map fun i =>
    dist' (pts1.getD i ⟨0, 0⟩) (pts2.getD i ⟨0, 0⟩)).sum / pts1.length

/-- onedollar.js `_distanceAtAngle(points, T, radians)`. -/
def distanceAtAngle (points : List Pt) (T : OneTemplate) (radians : ℝ) : ℝ :=
  pathDistance (rotateBy points radians) T.Points

/-- The golden ratio constant `Phi = 0.5 * (-1 + sqrt 5)` of onedollar.js. -/
def Phi : ℝ := 0.5 * (-1 + Real.sqrt 5)

/-- The mutable state of the `_distanceAtBestAngle` while loop, together with
a count of the objective evaluations performed so far (each call to
`_distanceAtAngle` increments it). -/
structure GssState where
  a : ℝ
  b : ℝ
  x1 : ℝ
  x2 : ℝ
  f1 : ℝ
  f2 : ℝ
  evals : ℕ

/-- The state before the first loop iteration of `_distanceAtBestAngle`:
two interior golden-section points, each evaluated once. -/
def gssInit (f : ℝ → ℝ) (a b : ℝ) : GssState :=
  ⟨a, b, Phi * a + (1 - Phi) * b, (1 - Phi) * a + Phi * b,
   f (Phi * a + (1 - Phi) * b), f ((1 - Phi) * a + Phi * b), 2⟩

/-- One iteration of the `_distanceAtBestAngle` loop: shrink toward the
lower-valued interior point, keep the retained sample, evaluate the objective
exactly once. -/
def gssStep (f : ℝ → ℝ) (s : GssState) : GssState :=
  if s.f1 < s.f2 then
    let b := s.x2
    let x1 := Phi * s.a + (1 - Phi) * b
    ⟨s.a, b, x1, s.x1, f x1, s.f1, s.evals + 1⟩
  else
    let a := s.x1
    let x2 := (1 - Phi) * a + Phi * s.b
    ⟨a, s.b, s.x2, x2, s.f2, f x2, s.evals + 1⟩

/-- The while loop of `_distanceAtBestAngle`: iterate `gssStep` until
`|b - a| ≤ threshold`.  The source loop has no internal bound; the embedding
takes fuel and returns `none` if the stopping condition was not reached within
`fuel` iterations (the termination theorem shows some fuel always suffices
when the threshold is positive). -/
def gssGo (f : ℝ → ℝ) (threshold : ℝ) : ℕ → GssState → Option GssState
  | 0, s => if |s.b - s.a| ≤ threshold then some s else none
  | fuel + 1, s =>
    if |s.b - s.a| ≤ threshold then some s else gssGo f threshold fuel (gssStep f s)

/-- The loop invariant of `_distanceAtBestAngle`: the two interior points sit
at the golden-section positions of the current bracket and the two cached
objective values are the objective at those points (each was computed by one
of the `_distanceAtAngle` calls). -/
def GssWF (f : ℝ → ℝ) (s : GssState) : Prop :=
  s.x1 = Phi * s.a + (1 - Phi) * s.b ∧ s.x2 = (1 - Phi) * s.a + Phi * s.b ∧
    s.f1 = f s.x1 ∧ s.f2 = f s.x2

/-- onedollar.js `_distanceAtBestAngle(points, T, a, b, threshold)` with
explicit fuel: golden-section search returning the minimum of the two
last-evaluated objective values. -/
def distanceAtBestAngleFuel (points : List Pt) (T : OneTemplate) (a b threshold : ℝ)
    (fuel : ℕ) : Option ℝ :=
  (gssGo (distanceAtAngle points T) threshold fuel (gssInit (distanceAtAngle points T) a b)).map
    fun s => min s.f1 s.f2

/-- `_distanceAtBestAngle` as used by `check` (angle range ±45°, precision 2°).
64 iterations are far more than the loop ever runs (the bracket shrinks by the
factor `Phi < 1` each iteration); the default value `0` of the impossible
fuel-exhaustion branch is never used for a positive threshold. -/
def distanceAtBestAngle (points : List Pt) (T : OneTemplate) (a b threshold : ℝ) : ℝ :=
  (distanceAtBestAngleFuel points T a b threshold 64).getD 0

/-- The normalization pipeline that `check` and `add` of onedollar.js run:
resample to 64 points, derotate by the indicative angle, scale to the
250-square, translate the centroid to the origin. -/
def oneNormalize (points : List Pt) : List Pt :=
  let r := resample points 64
  let radians := indicativeAngle r
  translateTo (scaleTo (rotateBy r (-radians)) 250) ⟨0, 0⟩

/-- `HalfDiagonal` of onedollar.js: half the diagonal of the 250-square. -/
def HalfDiagonal : ℝ := 0.5 * Real.sqrt (250 * 250 + 250 * 250)

/-- A recognition result (`performance.now()` timing not modelled). -/
structure RecResult where
  name : String
  score : ℝ

/-- The template loop of onedollar.js `check`: running minimum `b` (`none`
standing for the initial `+Infinity`) and its template index `t`. -/
def oneLoop (pp : List Pt) : List OneTemplate → ℕ → Option ℝ × ℕ → Option ℝ × ℕ
  | [], _, bt => bt
  | tp :: ts, i, (b, t) =>
    let d := distanceAtBestAngle pp tp (-45) 45 2
    match b with
    | none => oneLoop pp ts (i + 1) (some d, i)
    | some m =>
      if d < m then oneLoop pp ts (i + 1) (some d, i) else oneLoop pp ts (i + 1) (some m, t)

/-- onedollar.js `check(points)` over an explicit template store.  The source
reads `this.Templates[t].Name` unconditionally; on an empty store that access
fails (a `TypeError` in JavaScript), modelled by `none`. -/
def oneDollarCheck (templates : List OneTemplate) (points : List Pt) : Option RecResult :=
  let pp := oneNormalize points
  let bt := oneLoop pp templates 0 (none, 0)
  let score := match bt.1 with
    | none => (0 : ℝ)
    | some m => max (1 - m / HalfDiagonal) 0
  (templates.get? bt.2).map fun tp => ⟨tp.Name, score⟩

/-! ## Exact-real model of the `QDollar` recognizer (qdollar.js)

qdollar.js points carry a stroke id (`_convertPoints` assigns `id: 1` to all
points of a flat-pair input); `_resample` and `_pathLength` skip across
points whose id differs from their predecessor's. -/

/-- A qdollar.js point `{x, y, id}`. -/
structure Qp where
  x : ℝ
  y : ℝ
  id : ℤ

/-- qdollar.js `_distance(p1, p2)`. -/
def distQ (p1 p2 : Qp) : ℝ :=
  Real.sqrt ((p1.x - p2.x) * (p1.x - p2.x) + (p1.y - p2.y) * (p1.y - p2.y))

/-- qdollar.js `_sqrEuclideanDistance(p1, p2)`. -/
def sqrEuclideanDistance (p1 p2 : Qp) : ℝ :=
  (p1.x - p2.x) * (p1.x - p2.x) + (p1.y - p2.y) * (p1.y - p2.y)

/-- qdollar.js `_pathLength(points)`: consecutive distances, skipping pairs
with different stroke ids. -/
def pathLengthQ : List Qp → ℝ
  | p :: q :: rest =>
    (if q.id = p.id then distQ p q else 0) + pathLengthQ (q :: rest)
  | _ => 0

/-- The walk of qdollar.js `_resample` (like `resampleGo`, with the stroke-id
guard: a segment whose endpoints have different ids is stepped over without
accumulating distance). -/
def resampleQGo (I : ℝ) : ℕ → Qp → List Qp → ℝ → List Qp → List Qp
  | 0, _, _, _, acc => acc
  | _ + 1, _, [], _, acc => acc
  | fuel + 1, prev, p :: ps, D, acc =>
    if p.id = prev.id then
      let d := distQ prev p
      if I ≤ D + d then
        let q : Qp := ⟨prev.x + ((I - D) / d) * (p.x - prev.x),
                       prev.y + ((I - D) / d) * (p.y - prev.y), p.id⟩
        resampleQGo I fuel q (p :: ps) 0 (acc ++ [q])
      else
        resampleQGo I fuel p ps (D + d) acc
    else
      resampleQGo I fuel p ps D acc

/-- qdollar.js `_resample(points, n)`. -/
def resampleQ (points : List Qp) (n : ℕ) : List Qp :=
  match points with
  | [] => []
  | p0 :: rest =>
    let I := pathLengthQ (p0 :: rest) / ((n : ℝ) - 1)
    let newPoints := resampleQGo I ((p0 :: rest).length + n) p0 rest 0 [p0]
    if newPoints.length = n - 1 then newPoints ++ [rest.getLastD p0] else newPoints

/-- qdollar.js `_scale(points)` in the exact-real model: isotropic scale
dividing both axes by `max(width, height)` after shifting by the minima. -/
def scaleQ (points : List Qp) : List Qp :=
  match points with
  | [] => []
  | p0 :: rest =>
    let minX := rest.foldl (fun m p => min m p.x) p0.x
    let minY := rest.foldl (fun m p => min m p.y) p0.y
    let maxX := rest.foldl (fun m p => max m p.x) p0.x
    let maxY := rest.foldl (fun m p => max m p.y) p0.y
    let size := max (maxX - minX) (maxY - minY)
    (p0 :: rest).map fun p => ⟨(p.x - minX) / size, (p.y - minY) / size, p.id⟩

/-- qdollar.js `_centroid(points)`. -/
def centroidQ (points : List Qp) : Pt :=
  ⟨(points.map Qp.x).sum / points.length, (points.map Qp.y).sum / points.length⟩

/-- qdollar.js `_translateTo(points, pt)`: shift every point by the constant
offset `pt - centroid`, keeping ids. -/
def translateToQ (points : List Qp) (pt : Pt) : List Qp :=
  let c := centroidQ points
  points.map fun p => ⟨p.x + pt.x - c.x, p.y + pt.y - c.y, p.id⟩

/-- The preprocessing run by qdollar.js `check` and `add`: resample to 64,
isotropic scale, translate centroid to the origin. -/
def qNormalize (points : List Qp) : List Qp :=
  translateToQ (scaleQ (resampleQ points 64)) ⟨0, 0⟩

/-- A template of qdollar.js (the `LUT` member is stored as `[]` and never
read, so it is omitted). -/
structure QTemplate where
  Name : String
  Points : List Qp

/-- The inner loop of `_cloudDistance` for one candidate point `p`: scan the
indices `j < n`, skipping matched ones, and keep the index of the smallest
squared distance together with that distance (`none` is the initial state
`index = -1`, `min = +Infinity`).  The source indexes `pts2[j]` for
`j < pts1.length`; an out-of-range access compares as `NaN` in JavaScript and
is never selected, modelled by skipping it. -/
def cloudScan (p : Qp) (pts2 : List Qp) (matched : List Bool) (n : ℕ) : Option (ℕ × ℝ) :=
  (List.range n).foldl
    (fun best j =>
      if matched.getD j false then best
      else
        match pts2.get? j with
        | none => best
        | some q =>
          let d := sqrEuclideanDistance p q
          match best with
          | none => some (j, d)
          | some (_, m) => if d < m then some (j, d) else best)
    none

/-- The early-exit test `sum >= minSoFar` of `_cloudDistance`; `none` stands
for the initial `+Infinity` bound of `check`, which is never exceeded. -/
def exceeds (minSoFar : Option ℝ) (sum : ℝ) : Prop :=
  match minSoFar with
  | none => False
  | some m => m ≤ sum

instance (minSoFar : Option ℝ) (sum : ℝ) : Decidable (exceeds minSoFar sum) := by
  unfold exceeds
  match minSoFar with
  | none => exact inferInstance
  | some m => exact inferInstance

/-- The outer loop of qdollar.js `_cloudDistance`: for each candidate point in
order, greedily consume the nearest unmatched template point, add the
square-rooted distance to the running sum, and return the partial sum as soon
as it reaches `minSoFar`. -/
def cloudGo (pts2 : List Qp) (n : ℕ) (minSoFar : Option ℝ) :
    List Qp → List Bool → ℝ → ℝ
  | [], _, sum => sum
  | p :: ps, matched, sum =>
    let step : List Bool × ℝ :=
      match cloudScan p pts2 matched n with
      | none => (matched, sum)
      | some (j, m) => (matched.set j true, sum + Real.sqrt m)
    if exceeds minSoFar step.2 then step.2 else cloudGo pts2 n minSoFar ps step.1 step.2

/-- qdollar.js `_cloudDistance(pts1, pts2, start, minSoFar)` (the `start`
parameter of the source is never read by the body). -/
def cloudDistance (pts1 pts2 : List Qp) (minSoFar : Option ℝ) : ℝ :=
  cloudGo pts2 pts1.length minSoFar pts1 (List.replicate pts1.length false) 0

/-- qdollar.js `_cloudMatch(points, template, minSoFar)`. -/
def cloudMatch (points : List Qp) (template : QTemplate) (minSoFar : Option ℝ) : ℝ :=
  cloudDistance points template.Points minSoFar

/-- The template loop of qdollar.js `check`: the best template and its
distance (`none` for the initial `bestTemplate = null`, `minDistance =
+Infinity`).  The current minimum is passed to `_cloudMatch` as the pruning
bound. -/
def qLoop (pp : List Qp) : List QTemplate → Option (QTemplate × ℝ) → Option (QTemplate × ℝ)
  | [], best => best
  | tp :: ts, best =>
    let d := cloudMatch pp tp (best.map Prod.snd)
    match best with
    | none => qLoop pp ts (some (tp, d))
    | some (tb, m) =>
      if d < m then qLoop pp ts (some (tp, d)) else qLoop pp ts (some (tb, m))

/-- qdollar.js `check(points)` over an explicit template store: on an empty
store the result is `"No match"` with score `0`; otherwise the score is
`max(1 - (minDistance / 64) / 0.5, 0)`. -/
def qDollarCheck (templates : List QTemplate) (points : List Qp) : RecResult :=
  let pp := qNormalize points
  match qLoop pp templates none with
  | none => ⟨"No match", 0⟩
  | some (tb, m) => ⟨tb.Name, max (1 - m / 64 / 0.5) 0⟩

/-- The unpruned cloud matcher described by the specification's early-exit
equivalence property: the same greedy nearest-neighbour match, run to
completion with no early-termination bound (`minSoFar = +Infinity`
throughout). -/
def cloudMatchUnpruned (points : List Qp) (template : QTemplate) : ℝ :=
  cloudDistance points template.Points none

/-- The template loop of `check` with the pruning disabled: every template is
fully matched. -/
def qLoopUnpruned (pp : List Qp) : List QTemplate → Option (QTemplate × ℝ) → Option (QTemplate × ℝ)
  | [], best => best
  | tp :: ts, best =>
    let d := cloudMatchUnpruned pp tp
    match best with
    | none => qLoopUnpruned pp ts (some (tp, d))
    | some (tb, m) =>
      if d < m then qLoopUnpruned pp ts (some (tp, d)) else qLoopUnpruned pp ts (some (tb, m))

/-- qdollar.js `check` with the early-termination pruning disabled. -/
def qDollarCheckUnpruned (templates : List QTemplate) (points : List Qp) : RecResult :=
  let pp := qNormalize points
  match qLoopUnpruned pp templates none with
  | none => ⟨"No match", 0⟩
  | some (tb, m) => ⟨tb.Name, max (1 - m / 64 / 0.5) 0⟩

/-- The distance `check` of onedollar.js computes for one template: the
best-angle path distance of the normalized candidate, over ±45° with 2°
precision. -/
def oneTemplateDistance (points : List Pt) (tp : OneTemplate) : ℝ :=
  distanceAtBestAngle (oneNormalize points) tp (-45) 45 2

/-- The full (unpruned) greedy cloud distance of qdollar.js between the
normalized candidate and one template — the distance whose minimum `check`
selects (the pruned runs return lower bounds that never change the
selection). -/
def qTemplateDistance (points : List Qp) (tp : QTemplate) : ℝ :=
  cloudDistance (qNormalize points) tp.Points none

/-! ## Input conversion and the caller's array (frame effects)

`_convertPoints` of both recognizers returns a *fresh* array (built by
`Array.prototype.map`) when the input is a list of flat `[x, y]` pairs, but
returns *the caller's own array* when the input is already a list of `{x, y}`
records.  `_resample` then splices synthesized points into the array it was
given.  `checkCallerArray` gives the contents of the caller's array after a
`check`/`add` call on each input representation. -/

/-- The two accepted input representations of onedollar.js
`check(points)`/`add(name, points)`: flat `[x, y]` pairs, or `{x, y}`
records. -/
inductive RawInput where
  | pairs (l : List (ℝ × ℝ)) : RawInput
  | records (l : List Pt) : RawInput

/-- onedollar.js `_convertPoints(rawPoints)`: pairs are mapped into a fresh
array of `{x, y}` records; record input is returned as is (the same array the
caller passed). -/
def convertPoints : RawInput → List Pt
  | RawInput.pairs l => l.map fun p => ⟨p.1, p.2⟩
  | RawInput.records l => l

/-- The contents of the caller's array after onedollar.js `check`/`add`.  For
pair input the pipeline works on the fresh array built by `_convertPoints`,
so the caller's array is unchanged.  For record input `_convertPoints`
returns the caller's array itself and `_resample` splices the synthesized
points into it (`resampleMut`). -/
def checkCallerArray : RawInput → RawInput
  | RawInput.pairs l => RawInput.pairs l
  | RawInput.records l => RawInput.records (resampleMut l 64)

end

/-! ## Lemmas and claim theorems -/

/-! ### C7: degenerate bounding boxes in the scale steps -/

lemma jmin_pinf (b : JNum) : JNum.jmin JNum.pinf b = b := by
  cases b <;> rfl

lemma jmax_ninf (b : JNum) : JNum.jmax JNum.ninf b = b := by
  cases b <;> rfl

lemma foldl_jmin_fin (l : List ℚ) : ∀ q : ℚ,
    (l.map JNum.fin).foldl JNum.jmin (JNum.fin q) = JNum.fin (l.foldl min q) := by
  induction l with
  | nil => intro q; rfl
  | cons a l ih => intro q; simpa using ih (min q a)

lemma foldl_jmax_fin (l : List ℚ) : ∀ q : ℚ,
    (l.map JNum.fin).foldl JNum.jmax (JNum.fin q) = JNum.fin (l.foldl max q) := by
  induction l with
  | nil => intro q; rfl
  | cons a l ih => intro q; simpa using ih (max q a)

lemma foldl_min_le_init (l : List ℚ) : ∀ q : ℚ, l.foldl min q ≤ q := by
  induction l with
  | nil => intro q; exact le_refl q
  | cons a l ih => intro q; exact le_trans (ih (min q a)) (min_le_left q a)

lemma foldl_min_le_mem (l : List ℚ) : ∀ q a : ℚ, a ∈ l → l.foldl min q ≤ a := by
  induction l with
  | nil => intro q a h; cases h
  | cons b l ih =>
    intro q a h
    rcases List.mem_cons.mp h with h | h
    · subst h
      exact le_trans (foldl_min_le_init l (min q a)) (min_le_right q a)
    · exact ih (min q b) a h

lemma init_le_foldl_max (l : List ℚ) : ∀ q : ℚ, q ≤ l.foldl max q := by
  induction l with
  | nil => intro q; exact le_refl q
  | cons a l ih => intro q; exact le_trans (le_max_left q a) (ih (max q a))

lemma mem_le_foldl_max (l : List ℚ) : ∀ q a : ℚ, a ∈ l → a ≤ l.foldl max q := by
  induction l with
  | nil => intro q a h; cases h
  | cons b l ih =>
    intro q a h
    rcases List.mem_cons.mp h with h | h
    · subst h
      exact le_trans (le_max_right q a) (init_le_foldl_max l (max q a))
    · exact ih (max q b) a h

/-- The x-minimum fold of `scaleQJ` on an all-finite input, reduced to a
rational fold. -/
lemma scaleQJ_minX (a : ℚ × ℚ) (rest : List (ℚ × ℚ)) :
    (toJPoints (a :: rest)).foldl (fun m p => JNum.jmin m p.x) JNum.pinf =
      JNum.fin ((rest.map Prod.fst).foldl min a.1) := by
  have h : ∀ (l : List (ℚ × ℚ)) (m : JNum),
      (toJPoints l).foldl (fun m p => JNum.jmin m p.x) m =
        ((l.map Prod.fst).map JNum.fin).foldl JNum.jmin m := by
    intro l
    induction l with
    | nil => intro m; rfl
    | cons b l ih => intro m; simpa [toJPoints] using ih _
  rw [h]
  simp only [List.map_cons, List.foldl_cons, jmin_pinf]
  exact foldl_jmin_fin _ a.1

lemma scaleQJ_minY (a : ℚ × ℚ) (rest : List (ℚ × ℚ)) :
    (toJPoints (a :: rest)).foldl (fun m p => JNum.jmin m p.y) JNum.pinf =
      JNum.fin ((rest.map Prod.snd).foldl min a.2) := by
  have h : ∀ (l : List (ℚ × ℚ)) (m : JNum),
      (toJPoints l).foldl (fun m p => JNum.jmin m p.y) m =
        ((l.map Prod.snd).map JNum.fin).foldl JNum.jmin m := by
    intro l
    induction l with
    | nil => intro m; rfl
    | cons b l ih => intro m; simpa [toJPoints] using ih _
  rw [h]
  simp only [List.map_cons, List.foldl_cons, jmin_pinf]
  exact foldl_jmin_fin _ a.2

lemma scaleQJ_maxX (a : ℚ × ℚ) (rest : List (ℚ × ℚ)) :
    (toJPoints (a :: rest)).foldl (fun m p => JNum.jmax m p.x) JNum.ninf =
      JNum.fin ((rest.map Prod.fst).foldl max a.1) := by
  have h : ∀ (l : List (ℚ × ℚ)) (m : JNum),
      (toJPoints l).foldl (fun m p => JNum.jmax m p.x) m =
        ((l.map Prod.fst).map JNum.fin).foldl JNum.jmax m := by
    intro l
    induction l with
    | nil => intro m; rfl
    | cons b l ih => intro m; simpa [toJPoints] using ih _
  rw [h]
  simp only [List.map_cons, List.foldl_cons, jmax_ninf]
  exact foldl_jmax_fin _ a.1

lemma scaleQJ_maxY (a : ℚ × ℚ) (rest : List (ℚ × ℚ)) :
    (toJPoints (a :: rest)).foldl (fun m p => JNum.jmax m p.y) JNum.ninf =
      JNum.fin ((rest.map Prod.snd).foldl max a.2) := by
  have h : ∀ (l : List (ℚ × ℚ)) (m : JNum),
      (toJPoints l).foldl (fun m p => JNum.jmax m p.y) m =
        ((l.map Prod.snd).map JNum.fin).foldl JNum.jmax m := by
    intro l
    induction l with
    | nil => intro m; rfl
    | cons b l ih => intro m; simpa [toJPoints] using ih _
  rw [h]
  simp only [List.map_cons, List.foldl_cons, jmax_ninf]
  exact foldl_jmax_fin _ a.2

/-- The claim of C7, refuted at a perfectly vertical stroke: its bounding box
has width 0, yet onedollar.js `_scaleTo` performs the division `size / 0`
unguarded and the scaled output's x-coordinates are `NaN` (`0 * Infinity`),
which downstream centroid and distance computations would consume. -/
theorem c7_counterexample :
    (boundingBoxJ [⟨JNum.fin 0, JNum.fin 0⟩, ⟨JNum.fin 0, JNum.fin 1⟩]).width = JNum.fin 0 ∧
      scaleToJ [⟨JNum.fin 0, JNum.fin 0⟩, ⟨JNum.fin 0, JNum.fin 1⟩] (JNum.fin 250) =
        [⟨JNum.nan, JNum.fin 0⟩, ⟨JNum.nan, JNum.fin 250⟩] := by
  constructor
  · norm_num [boundingBoxJ, JNum.jmin, JNum.jmax, JNum.sub]
  · norm_num [scaleToJ, boundingBoxJ, JNum.jmin, JNum.jmax, JNum.sub, JNum.div, JNum.mul]

/-- C7 (amended): qdollar.js `_scale` guards its division — it divides both
axes by `max(width, height)`, so for every finite input in which some two
points differ in x or in y (in particular for every perfectly vertical or
horizontal stroke with two distinct points) the scaled output is entirely
finite: no Infinity or NaN is propagated.  onedollar.js `_scaleTo` has no such
guard (see the counterexample). -/
theorem c7_qdollar_scale_guarded (l : List (ℚ × ℚ))
    (h : ∃ u ∈ l, ∃ v ∈ l, u.1 ≠ v.1 ∨ u.2 ≠ v.2) :
    ∀ p ∈ scaleQJ (toJPoints l), p.x.isFinite = true ∧ p.y.isFinite = true := by
  obtain ⟨u, hu, v, hv, huv⟩ := h
  match l, hu with
  | a :: rest, hu =>
    have hxmin := scaleQJ_minX a rest
    have hymin := scaleQJ_minY a rest
    have hxmax := scaleQJ_maxX a rest
    have hymax := scaleQJ_maxY a rest
    set mx := (rest.map Prod.fst).foldl min a.1 with hmx
    set my := (rest.map Prod.snd).foldl min a.2 with hmy
    set Mx := (rest.map Prod.fst).foldl max a.1 with hMx
    set My := (rest.map Prod.snd).foldl max a.2 with hMy
    -- bounds: every first coordinate lies in [mx, Mx], every second in [my, My]
    have hfst : ∀ w ∈ a :: rest, mx ≤ w.1 ∧ w.1 ≤ Mx := by
      intro w hw
      rcases List.mem_cons.mp hw with hw | hw
      · subst hw
        exact ⟨foldl_min_le_init _ _, init_le_foldl_max _ _⟩
      · exact ⟨foldl_min_le_mem _ _ _ (List.mem_map_of_mem Prod.fst hw),
          mem_le_foldl_max _ _ _ (List.mem_map_of_mem Prod.fst hw)⟩
    have hsnd : ∀ w ∈ a :: rest, my ≤ w.2 ∧ w.2 ≤ My := by
      intro w hw
      rcases List.mem_cons.mp hw with hw | hw
      · subst hw
        exact ⟨foldl_min_le_init _ _, init_le_foldl_max _ _⟩
      · exact ⟨foldl_min_le_mem _ _ _ (List.mem_map_of_mem Prod.snd hw),
          mem_le_foldl_max _ _ _ (List.mem_map_of_mem Prod.snd hw)⟩
    -- the isotropic size is positive
    have hsize : 0 < max (Mx - mx) (My - my) := by
      rcases huv with huv | huv
      · have h1 := hfst u hu
        have h2 := hfst v hv
        have : 0 < Mx - mx := by
          rcases lt_or_gt_of_ne huv with hlt | hlt
          · linarith [h1.1, h2.2]
          · linarith [h2.1, h1.2]
        exact lt_max_of_lt_left this
      · have h1 := hsnd u hu
        have h2 := hsnd v hv
        have : 0 < My - my := by
          rcases lt_or_gt_of_ne huv with hlt | hlt
          · linarith [h1.1, h2.2]
          · linarith [h2.1, h1.2]
        exact lt_max_of_lt_right this
    intro p hp
    simp only [scaleQJ, hxmin, hymin, hxmax, hymax, List.mem_map] at hp
    obtain ⟨w, hw, rfl⟩ := hp
    simp only [toJPoints, List.mem_map] at hw
    obtain ⟨z, hz, rfl⟩ := hw
    have hs0 : max (Mx - mx) (My - my) ≠ 0 := ne_of_gt hsize
    constructor <;>
      simp [JNum.sub, JNum.jmax, JNum.div, hs0, JNum.isFinite]

/-- Witness for `c7_qdollar_scale_guarded` at a two-point vertical stroke. -/
theorem c7_qdollar_scale_guarded_witness :
    ((scaleQJ (toJPoints [(0, 0), (0, 1)])).all fun p => p.x.isFinite && p.y.isFinite) = true := by
  rw [List.all_eq_true]
  intro p hp
  have h := c7_qdollar_scale_guarded [(0, 0), (0, 1)] (by decide) p hp
  simp [h.1, h.2]

/-! ### C9: `_translateTo` puts the centroid exactly on the target -/

lemma map_add_const_sum {α : Type} (l : List α) (g : α → ℝ) (k : ℝ) :
    (l.map fun a => g a + k).sum = (l.map g).sum + l.length * k := by
  induction l with
  | nil => simp
  | cons a l ih =>
    simp only [List.map_cons, List.sum_cons, ih, List.length_cons]
    push_cast
    ring

/-- C9: for every nonempty point sequence and every target point, the centroid
of the translated sequence is exactly the target, for onedollar.js
`_translateTo` (first conjunct) and qdollar.js `_translateTo` (second
conjunct). -/
theorem c9_translate_centroid :
    (∀ (points : List Pt) (pt : Pt), points ≠ [] →
      centroid (translateTo points pt) = pt) ∧
    (∀ (points : List Qp) (pt : Pt), points ≠ [] →
      centroidQ (translateToQ points pt) = pt) := by
  constructor
  · intro points pt h
    obtain ⟨px, py⟩ := pt
    have hn : (points.length : ℝ) ≠ 0 := by
      simpa using h
    unfold centroid translateTo
    simp only [List.map_map, List.length_map]
    have hx : (points.map (Pt.x ∘ fun p =>
        (⟨p.x + px - (centroid points).x, p.y + py - (centroid points).y⟩ : Pt))) =
        points.map fun p => p.x + (px - (centroid points).x) := by
      apply List.map_congr_left
      intro p _
      show p.x + px - (centroid points).x = _
      ring
    have hy : (points.map (Pt.y ∘ fun p =>
        (⟨p.x + px - (centroid points).x, p.y + py - (centroid points).y⟩ : Pt))) =
        points.map fun p => p.y + (py - (centroid points).y) := by
      apply List.map_congr_left
      intro p _
      show p.y + py - (centroid points).y = _
      ring
    rw [hx, hy, map_add_const_sum, map_add_const_sum]
    show Pt.mk _ _ = Pt.mk px py
    unfold centroid
    field_simp
  · intro points pt h
    obtain ⟨px, py⟩ := pt
    have hn : (points.length : ℝ) ≠ 0 := by
      simpa using h
    unfold centroidQ translateToQ
    simp only [List.map_map, List.length_map]
    have hx : (points.map (Qp.x ∘ fun p =>
        (⟨p.x + px - (centroidQ points).x, p.y + py - (centroidQ points).y, p.id⟩ : Qp))) =
        points.map fun p => p.x + (px - (centroidQ points).x) := by
      apply List.map_congr_left
      intro p _
      show p.x + px - (centroidQ points).x = _
      ring
    have hy : (points.map (Qp.y ∘ fun p =>
        (⟨p.x + px - (centroidQ points).x, p.y + py - (centroidQ points).y, p.id⟩ : Qp))) =
        points.map fun p => p.y + (py - (centroidQ points).y) := by
      apply List.map_congr_left
      intro p _
      show p.y + py - (centroidQ points).y = _
      ring
    rw [hx, hy, map_add_const_sum, map_add_const_sum]
    show Pt.mk _ _ = Pt.mk px py
    unfold centroidQ
    field_simp

/-- Witness for `c9_translate_centroid` on concrete single-point inputs. -/
theorem c9_translate_centroid_witness :
    centroid (translateTo [⟨1, 2⟩] ⟨0, 0⟩) = (⟨0, 0⟩ : Pt) ∧
      centroidQ (translateToQ [⟨1, 2, 1⟩] ⟨0, 0⟩) = (⟨0, 0⟩ : Pt) :=
  ⟨c9_translate_centroid.1 [⟨1, 2⟩] ⟨0, 0⟩ (by simp),
   c9_translate_centroid.2 [⟨1, 2, 1⟩] ⟨0, 0⟩ (by simp)⟩

/-! ### C8: similarity scores are clamped at zero -/

/-- C8: whenever `check` returns a result its similarity score is
nonnegative: qdollar.js `check` always returns one (first conjunct), and
onedollar.js `check` (second conjunct, with `none` modelling the failing
template access on an empty store) never returns a negative score.  Both
scoring formulas end in `Math.max(score, 0)` (on the qdollar side only when a
best template exists; otherwise the score is the initial `0.0`). -/
theorem c8_score_nonneg :
    (∀ (templates : List QTemplate) (points : List Qp),
      0 ≤ (qDollarCheck templates points).score) ∧
    (∀ (templates : List OneTemplate) (points : List Pt),
      (oneDollarCheck templates points).elim True fun r => 0 ≤ r.score) := by
  constructor
  · intro templates points
    unfold qDollarCheck
    cases h : qLoop (qNormalize points) templates none with
    | none => simp [h]
    | some tm =>
      obtain ⟨tb, m⟩ := tm
      simp only [h]
      exact le_max_right _ _
  · intro templates points
    unfold oneDollarCheck
    cases h : templates.get? (oneLoop (oneNormalize points) templates 0 (none, 0)).2 with
    | none =>
      rw [List.get?_eq_getElem?] at h
      simp [h]
    | some tp =>
      rw [List.get?_eq_getElem?] at h
      cases hb : (oneLoop (oneNormalize points) templates 0 (none, 0)).1 with
      | none => simp [h, hb]
      | some m => simp [h, hb]

/-! ### C4: `check` on an empty template store -/

/-- The claim of C4, refuted on onedollar.js: with an empty template store its
`check` does not report a "no match" result — it reads
`this.Templates[t].Name` with `t = 0` on an empty array, which fails (a
`TypeError` on `undefined` in JavaScript, `none` in this embedding). -/
theorem c4_counterexample :
    oneDollarCheck [] [⟨0, 0⟩] = none := rfl

/-- C4 (amended): qdollar.js `check` with an empty template store returns
"No match" with similarity score 0 for every input, rather than throwing;
onedollar.js `check` instead fails on an empty store (its constructor always
registers nine default templates, so the store is never empty in practice). -/
theorem c4_empty_store :
    (∀ points : List Qp, qDollarCheck [] points = ⟨"No match", 0⟩) ∧
    (∀ points : List Pt, oneDollarCheck [] points = none) :=
  ⟨fun _ => rfl, fun _ => rfl⟩

/-! ### C2: degenerate strokes do not fail fast -/

lemma pathLength_replicate (p : Pt) (n : ℕ) : pathLength (List.replicate n p) = 0 := by
  induction n with
  | zero => rfl
  | succ n ih =>
    cases n with
    | zero => rfl
    | succ m =>
      rw [List.replicate_succ] at ih
      rw [List.replicate_succ, List.replicate_succ]
      rw [show pathLength (p :: p :: List.replicate m p) =
            dist' p p + pathLength (p :: List.replicate m p) from rfl]
      rw [ih]
      simp [dist']

/-- C2, showing the code has no fail-fast path: a stroke of the same point
repeated 30 times has total path length 0, and yet onedollar.js `check`
still returns a recognition result for it on any single-template store —
there is no `DegenerateStroke` (or any other) error anywhere in `check`.
(In the floating-point original the same run silently propagates `NaN`
through every pipeline stage and returns the first template's name with
score 0.) -/
theorem c2_degenerate_not_failing :
    pathLength (List.replicate 30 ⟨5, 5⟩) = 0 ∧
      ∀ tp : OneTemplate,
        (oneDollarCheck [tp] (List.replicate 30 ⟨5, 5⟩)).isSome = true := by
  refine ⟨pathLength_replicate ⟨5, 5⟩ 30, fun tp => ?_⟩
  simp [oneDollarCheck, oneLoop]

/-! ### C1: `_resample` returns exactly N points

The key invariant of the resampling walk: writing `E = D + pathLength (prev ::
rest)` for the accumulated distance plus the path length still to walk, every
emission consumes exactly `I` of `E` (the synthesized point lies at distance
exactly `I - D` along the current segment) and every plain step preserves `E`.
Starting from `E = I * (n - 1)` and keeping `0 ≤ D < I`, the walk therefore
emits exactly `n - 1` points. -/

lemma dist'_nonneg (p q : Pt) : 0 ≤ dist' p q := Real.sqrt_nonneg _

lemma pathLength_nonneg : ∀ l : List Pt, 0 ≤ pathLength l := by
  intro l
  induction l with
  | nil => simp [pathLength]
  | cons p rest ih =>
    cases rest with
    | nil => simp [pathLength]
    | cons q rest2 =>
      rw [show pathLength (p :: q :: rest2) = dist' p q + pathLength (q :: rest2) from rfl]
      exact add_nonneg (dist'_nonneg p q) ih

/-- Distance from the interpolated point to the segment's far endpoint:
`dist (lerp a b t) b = (1 - t) * dist a b` for `t ≤ 1`. -/
lemma dist'_lerp (a b : Pt) (t : ℝ) (h1 : t ≤ 1) :
    dist' (lerp a b t) b = (1 - t) * dist' a b := by
  show Real.sqrt ((a.x + t * (b.x - a.x) - b.x) * (a.x + t * (b.x - a.x) - b.x) +
      (a.y + t * (b.y - a.y) - b.y) * (a.y + t * (b.y - a.y) - b.y)) =
    (1 - t) * Real.sqrt ((a.x - b.x) * (a.x - b.x) + (a.y - b.y) * (a.y - b.y))
  rw [show a.x + t * (b.x - a.x) - b.x = (1 - t) * (a.x - b.x) from by ring,
    show a.y + t * (b.y - a.y) - b.y = (1 - t) * (a.y - b.y) from by ring]
  rw [show (1 - t) * (a.x - b.x) * ((1 - t) * (a.x - b.x)) +
      (1 - t) * (a.y - b.y) * ((1 - t) * (a.y - b.y)) =
      ((1 - t) * (1 - t)) * ((a.x - b.x) * (a.x - b.x) + (a.y - b.y) * (a.y - b.y)) from by
    ring]
  rw [Real.sqrt_mul (mul_self_nonneg (1 - t))]
  rw [Real.sqrt_mul_self (by linarith : (0:ℝ) ≤ 1 - t)]

lemma resampleGo_length (I : ℝ) (hI : 0 < I) :
    ∀ (fuel j : ℕ) (prev : Pt) (rest : List Pt) (D : ℝ) (acc : List Pt),
      0 ≤ D → D < I → D + pathLength (prev :: rest) = I * j →
      rest.length + j ≤ fuel →
      (resampleGo I fuel prev rest D acc).length = acc.length + j := by
  intro fuel
  induction fuel with
  | zero =>
    intro j prev rest D acc hD hDI hE hfuel
    have hj : j = 0 := by omega
    subst hj
    simp [resampleGo]
  | succ fuel ih =>
    intro j prev rest D acc hD hDI hE hfuel
    cases rest with
    | nil =>
      rw [show pathLength [prev] = 0 from rfl] at hE
      have hj : j = 0 := by
        by_contra hne
        have h1 : (1:ℝ) ≤ (j:ℝ) := by
          exact_mod_cast Nat.one_le_iff_ne_zero.mpr hne
        nlinarith
      subst hj
      simp [resampleGo]
    | cons p ps =>
      simp only [resampleGo]
      rw [show pathLength (prev :: p :: ps) = dist' prev p + pathLength (p :: ps) from rfl] at hE
      have hd0 : 0 ≤ dist' prev p := dist'_nonneg prev p
      have hPL : 0 ≤ pathLength (p :: ps) := pathLength_nonneg _
      by_cases hcond : I ≤ D + dist' prev p
      · rw [if_pos hcond]
        have hj1 : 1 ≤ j := by
          by_contra h0
          have hj0 : j = 0 := by omega
          subst hj0
          simp only [Nat.cast_zero, mul_zero] at hE
          linarith
        obtain ⟨j', rfl⟩ : ∃ j', j = j' + 1 := ⟨j - 1, by omega⟩
        have hdpos : 0 < dist' prev p := by linarith
        have ht1 : (I - D) / dist' prev p ≤ 1 := by
          rw [div_le_one hdpos]
          linarith
        have hqp : dist' (lerp prev p ((I - D) / dist' prev p)) p = dist' prev p - (I - D) := by
          rw [dist'_lerp prev p _ ht1]
          field_simp
        have hrec := ih j' (lerp prev p ((I - D) / dist' prev p)) (p :: ps) 0
          (acc ++ [lerp prev p ((I - D) / dist' prev p)]) (le_refl 0) hI
          (by
            rw [show pathLength (lerp prev p ((I - D) / dist' prev p) :: p :: ps) =
              dist' (lerp prev p ((I - D) / dist' prev p)) p + pathLength (p :: ps) from rfl]
            rw [hqp]
            push_cast at hE ⊢
            linarith)
          (by simp at hfuel ⊢; omega)
        rw [hrec]
        simp [List.length_append]
        omega
      · rw [if_neg hcond]
        exact ih j p ps (D + dist' prev p) acc (by linarith)
          (by linarith [not_le.mp hcond])
          (by rw [show pathLength (p :: ps) = pathLength (p :: ps) from rfl]; linarith)
          (by simp at hfuel ⊢; omega)

/-- C1: on every input stroke with at least two points and positive total path
length (in particular, at least two distinct points), `_resample` with the
recognizer's fixed point count `N = 64` returns exactly 64 points, whatever
the input's point count. -/
theorem c1_resample_returns_64 (points : List Pt) (h2 : 2 ≤ points.length)
    (hL : 0 < pathLength points) : (resample points 64).length = 64 := by
  cases points with
  | nil => simp at h2
  | cons p0 rest =>
    have hI : 0 < pathLength (p0 :: rest) / (((64:ℕ) : ℝ) - 1) := by
      apply div_pos hL
      norm_num
    have hlen : (resampleGo (pathLength (p0 :: rest) / (((64:ℕ) : ℝ) - 1))
        ((p0 :: rest).length + 64) p0 rest 0 [p0]).length = 64 := by
      rw [resampleGo_length _ hI ((p0 :: rest).length + 64) 63 p0 rest 0 [p0]
        (le_refl 0) hI
        (by push_cast; field_simp; norm_num)
        (by simp)]
      rfl
    simp only [resample]
    rw [if_neg (by rw [hlen]; norm_num)]
    exact hlen

/-- Witness for `c1_resample_returns_64` on a concrete two-point stroke. -/
theorem c1_resample_returns_64_witness :
    (resample [⟨0, 0⟩, ⟨3, 4⟩] 64).length = 64 :=
  c1_resample_returns_64 [⟨0, 0⟩, ⟨3, 4⟩] (by simp)
    (by
      rw [show pathLength [(⟨0, 0⟩ : Pt), ⟨3, 4⟩] = dist' ⟨0, 0⟩ ⟨3, 4⟩ + 0 from rfl,
        add_zero]
      show 0 < Real.sqrt ((0 - 3) * (0 - 3) + (0 - 4) * (0 - 4))
      rw [Real.sqrt_pos]
      norm_num)

/-! ### C10: in-place mutation of the caller's array -/

lemma resampleMutGo_length (I : ℝ) (hI : 0 < I) :
    ∀ (fuel j : ℕ) (prev : Pt) (rest : List Pt) (D : ℝ),
      0 ≤ D → D < I → D + pathLength (prev :: rest) = I * j →
      rest.length + j ≤ fuel →
      (resampleMutGo I fuel prev rest D).length = rest.length + 1 + j := by
  intro fuel
  induction fuel with
  | zero =>
    intro j prev rest D hD hDI hE hfuel
    have hj : j = 0 := by omega
    subst hj
    simp [resampleMutGo]
  | succ fuel ih =>
    intro j prev rest D hD hDI hE hfuel
    cases rest with
    | nil =>
      rw [show pathLength [prev] = 0 from rfl] at hE
      have hj : j = 0 := by
        by_contra hne
        have h1 : (1:ℝ) ≤ (j:ℝ) := by
          exact_mod_cast Nat.one_le_iff_ne_zero.mpr hne
        nlinarith
      subst hj
      simp [resampleMutGo]
    | cons p ps =>
      simp only [resampleMutGo]
      rw [show pathLength (prev :: p :: ps) = dist' prev p + pathLength (p :: ps) from rfl] at hE
      have hd0 : 0 ≤ dist' prev p := dist'_nonneg prev p
      have hPL : 0 ≤ pathLength (p :: ps) := pathLength_nonneg _
      by_cases hcond : I ≤ D + dist' prev p
      · rw [if_pos hcond]
        have hj1 : 1 ≤ j := by
          by_contra h0
          have hj0 : j = 0 := by omega
          subst hj0
          simp only [Nat.cast_zero, mul_zero] at hE
          linarith
        obtain ⟨j', rfl⟩ : ∃ j', j = j' + 1 := ⟨j - 1, by omega⟩
        have hdpos : 0 < dist' prev p := by linarith
        have ht1 : (I - D) / dist' prev p ≤ 1 := by
          rw [div_le_one hdpos]
          linarith
        have hqp : dist' (lerp prev p ((I - D) / dist' prev p)) p = dist' prev p - (I - D) := by
          rw [dist'_lerp prev p _ ht1]
          field_simp
        have hrec := ih j' (lerp prev p ((I - D) / dist' prev p)) (p :: ps) 0
          (le_refl 0) hI
          (by
            rw [show pathLength (lerp prev p ((I - D) / dist' prev p) :: p :: ps) =
              dist' (lerp prev p ((I - D) / dist' prev p)) p + pathLength (p :: ps) from rfl]
            rw [hqp]
            push_cast at hE ⊢
            linarith)
          (by simp at hfuel ⊢; omega)
        rw [List.length_cons, hrec]
        simp
        omega
      · rw [if_neg hcond]
        rw [List.length_cons, ih j p ps (D + dist' prev p) (by linarith)
          (by linarith [not_le.mp hcond])
          (by linarith)
          (by simp at hfuel ⊢; omega)]
        simp
        omega

/-- C10: when the caller passes `{x, y}` records, `_convertPoints` hands the
caller's own array to `_resample`, whose splices grow it in place (for a
stroke with positive path length, by the 63 synthesized points), so the
caller's array is changed; when the caller passes `[x, y]` pairs, the
conversion builds a fresh array and the caller's array is left untouched.
The effect of `check`/`add` on their argument therefore depends on the input
representation. -/
theorem c10_caller_array_mutation :
    (∀ l : List Pt, 2 ≤ l.length → 0 < pathLength l →
      (resampleMut l 64).length = l.length + 63 ∧
        checkCallerArray (RawInput.records l) ≠ RawInput.records l) ∧
    (∀ l : List (ℝ × ℝ), checkCallerArray (RawInput.pairs l) = RawInput.pairs l) := by
  constructor
  · intro l h2 hL
    have hlen : (resampleMut l 64).length = l.length + 63 := by
      cases l with
      | nil => simp at h2
      | cons p0 rest =>
        have hI : 0 < pathLength (p0 :: rest) / (((64:ℕ) : ℝ) - 1) := by
          apply div_pos hL
          norm_num
        simp only [resampleMut]
        rw [resampleMutGo_length _ hI ((p0 :: rest).length + 64) 63 p0 rest 0
          (le_refl 0) hI
          (by push_cast; field_simp; norm_num)
          (by simp)]
        simp
    refine ⟨hlen, fun heq => ?_⟩
    have : resampleMut l 64 = l := by
      simpa [checkCallerArray] using heq
    rw [this] at hlen
    omega
  · intro l
    rfl

/-- Witness for `c10_caller_array_mutation` on a concrete two-point record
input. -/
theorem c10_caller_array_mutation_witness :
    (resampleMut [⟨0, 0⟩, ⟨0, 5⟩] 64).length = 65 ∧
      checkCallerArray (RawInput.records [⟨0, 0⟩, ⟨0, 5⟩]) ≠
        RawInput.records [⟨0, 0⟩, ⟨0, 5⟩] := by
  have h := c10_caller_array_mutation.1 [⟨0, 0⟩, ⟨0, 5⟩] (by simp)
    (by
      rw [show pathLength [(⟨0, 0⟩ : Pt), ⟨0, 5⟩] = dist' ⟨0, 0⟩ ⟨0, 5⟩ + 0 from rfl,
        add_zero]
      show 0 < Real.sqrt ((0 - 0) * (0 - 0) + (0 - 5) * (0 - 5))
      rw [Real.sqrt_pos]
      norm_num)
  exact ⟨by simpa using h.1, h.2⟩

/-! ### C3: the early-exit pruning never changes the selected template

The pruned run returns, for each template, either its full greedy distance or
a partial sum that already reached the pruning bound (a lower bound of the
full distance, since every later contribution is a nonnegative square root).
Either way the comparison `d < minDistance` in `check` gives the same answer
as it would for the full distance, with the same stored value whenever it
updates, so the loop states of the pruned and unpruned runs coincide. -/

lemma le_cloudGo (pts2 : List Qp) (n : ℕ) (bound : Option ℝ) :
    ∀ (ps : List Qp) (matched : List Bool) (sum : ℝ),
      sum ≤ cloudGo pts2 n bound ps matched sum := by
  intro ps
  induction ps with
  | nil => intro matched sum; simp [cloudGo]
  | cons p ps ih =>
    intro matched sum
    simp only [cloudGo]
    cases hscan : cloudScan p pts2 matched n with
    | none =>
      by_cases hex : exceeds bound (matched, sum).2
      · rw [if_pos hex]
      · rw [if_neg hex]
        exact ih matched sum
    | some jm =>
      obtain ⟨j, m⟩ := jm
      have hs : sum ≤ sum + Real.sqrt m := le_add_of_nonneg_right (Real.sqrt_nonneg m)
      by_cases hex : exceeds bound (matched.set j true, sum + Real.sqrt m).2
      · rw [if_pos hex]
        exact hs
      · rw [if_neg hex]
        exact le_trans hs (ih _ _)

lemma cloudGo_prune (pts2 : List Qp) (n : ℕ) (m : ℝ) :
    ∀ (ps : List Qp) (matched : List Bool) (sum : ℝ),
      (cloudGo pts2 n (some m) ps matched sum < m →
        cloudGo pts2 n (some m) ps matched sum = cloudGo pts2 n none ps matched sum) ∧
      (m ≤ cloudGo pts2 n (some m) ps matched sum →
        m ≤ cloudGo pts2 n none ps matched sum) := by
  intro ps
  induction ps with
  | nil =>
    intro matched sum
    exact ⟨fun _ => rfl, fun h => h⟩
  | cons p ps ih =>
    intro matched sum
    simp only [cloudGo]
    have hnone : ∀ s : ℝ, ¬ exceeds none s := fun _ h => h
    cases hscan : cloudScan p pts2 matched n with
    | none =>
      rw [if_neg (hnone (matched, sum).2)]
      by_cases hex : exceeds (some m) (matched, sum).2
      · rw [if_pos hex]
        have hms : m ≤ sum := hex
        exact ⟨fun h => absurd h (not_lt.mpr hms),
          fun _ => le_trans hms (le_cloudGo pts2 n none ps matched sum)⟩
      · rw [if_neg hex]
        exact ih matched sum
    | some jm =>
      obtain ⟨j, mm⟩ := jm
      rw [if_neg (hnone (matched.set j true, sum + Real.sqrt mm).2)]
      by_cases hex : exceeds (some m) (matched.set j true, sum + Real.sqrt mm).2
      · rw [if_pos hex]
        have hms : m ≤ sum + Real.sqrt mm := hex
        exact ⟨fun h => absurd h (not_lt.mpr hms),
          fun _ => le_trans hms (le_cloudGo pts2 n none ps _ _)⟩
      · rw [if_neg hex]
        exact ih _ _

lemma qLoop_eq_unpruned (pp : List Qp) :
    ∀ (ts : List QTemplate) (best : Option (QTemplate × ℝ)),
      qLoop pp ts best = qLoopUnpruned pp ts best := by
  intro ts
  induction ts with
  | nil => intro best; rfl
  | cons tp ts ih =>
    intro best
    cases best with
    | none =>
      simp only [qLoop, qLoopUnpruned, Option.map_none']
      exact ih (some (tp, cloudMatch pp tp none))
    | some bm =>
      obtain ⟨tb, m⟩ := bm
      simp only [qLoop, qLoopUnpruned, Option.map_some']
      have key1 : cloudMatch pp tp (some m) < m →
          cloudMatch pp tp (some m) = cloudMatchUnpruned pp tp :=
        (cloudGo_prune tp.Points pp.length m pp (List.replicate pp.length false) 0).1
      have key2 : m ≤ cloudMatch pp tp (some m) → m ≤ cloudMatchUnpruned pp tp :=
        (cloudGo_prune tp.Points pp.length m pp (List.replicate pp.length false) 0).2
      by_cases hd : cloudMatch pp tp (some m) < m
      · rw [if_pos hd]
        have heq := key1 hd
        rw [if_pos (by rw [← heq]; exact hd), ← heq]
        exact ih _
      · rw [if_neg hd]
        rw [if_neg (not_lt.mpr (key2 (not_lt.mp hd)))]
        exact ih _

/-- C3: for every candidate and every template store, qdollar.js `check` with
its early-termination pruning returns exactly the same result — in
particular the same matched template name — as the same `check` run with the
pruning disabled (every template fully matched); only the amount of work
differs. -/
theorem c3_pruning_preserves_selection (templates : List QTemplate) (points : List Qp) :
    qDollarCheck templates points = qDollarCheckUnpruned templates points := by
  simp only [qDollarCheck, qDollarCheckUnpruned, qLoop_eq_unpruned]

/-! ### C5: `check` selects the first template attaining the minimum distance -/

lemma oneLoop_go (pp : List Pt) :
    ∀ (ts : List OneTemplate) (i t : ℕ) (m : ℝ),
      (oneLoop pp ts i (some m, t) = (some m, t) ∧
        ∀ a ∈ ts, m ≤ distanceAtBestAngle pp a (-45) 45 2) ∨
      (∃ k, ∃ hk : k < ts.length,
        oneLoop pp ts i (some m, t) =
          (some (distanceAtBestAngle pp (ts.get ⟨k, hk⟩) (-45) 45 2), i + k) ∧
        distanceAtBestAngle pp (ts.get ⟨k, hk⟩) (-45) 45 2 < m ∧
        (∀ j (hj : j < ts.length),
          distanceAtBestAngle pp (ts.get ⟨k, hk⟩) (-45) 45 2 ≤
            distanceAtBestAngle pp (ts.get ⟨j, hj⟩) (-45) 45 2) ∧
        (∀ j (hj : j < ts.length), j < k →
          distanceAtBestAngle pp (ts.get ⟨k, hk⟩) (-45) 45 2 <
            distanceAtBestAngle pp (ts.get ⟨j, hj⟩) (-45) 45 2)) := by
  intro ts
  induction ts with
  | nil =>
    intro i t m
    left
    exact ⟨rfl, by simp⟩
  | cons a ts ih =>
    intro i t m
    by_cases hd : distanceAtBestAngle pp a (-45) 45 2 < m
    · have hstep : oneLoop pp (a :: ts) i (some m, t) =
          oneLoop pp ts (i + 1) (some (distanceAtBestAngle pp a (-45) 45 2), i) := by
        simp only [oneLoop]
        rw [if_pos hd]
      rcases ih (i + 1) i (distanceAtBestAngle pp a (-45) 45 2) with
        ⟨heq, hall⟩ | ⟨k, hk, heq, hlt, hmin, hstrict⟩
      · right
        refine ⟨0, by simp, ?_, hd, ?_, ?_⟩
        · rw [hstep, heq]
          simp
        · intro j hj
          cases j with
          | zero => exact le_refl _
          | succ j' =>
            have hj' : j' < ts.length := by simpa using hj
            exact hall _ (List.get_mem ts j' hj')
        · intro j hj hj0
          omega
      · right
        refine ⟨k + 1, by simpa using hk, ?_, lt_trans hlt hd, ?_, ?_⟩
        · rw [hstep, heq]
          congr 1
          omega
        · intro j hj
          cases j with
          | zero => exact le_of_lt hlt
          | succ j' =>
            have hj' : j' < ts.length := by simpa using hj
            exact hmin j' hj'
        · intro j hj hjk
          cases j with
          | zero => exact hlt
          | succ j' =>
            have hj' : j' < ts.length := by simpa using hj
            exact hstrict j' hj' (by omega)
    · have hstep : oneLoop pp (a :: ts) i (some m, t) =
          oneLoop pp ts (i + 1) (some m, t) := by
        simp only [oneLoop]
        rw [if_neg hd]
      rcases ih (i + 1) t m with
        ⟨heq, hall⟩ | ⟨k, hk, heq, hlt, hmin, hstrict⟩
      · left
        refine ⟨by rw [hstep, heq], ?_⟩
        intro b hb
        rcases List.mem_cons.mp hb with rfl | hb
        · exact not_lt.mp hd
        · exact hall b hb
      · right
        refine ⟨k + 1, by simpa using hk, ?_, hlt, ?_, ?_⟩
        · rw [hstep, heq]
          congr 1
          omega
        · intro j hj
          cases j with
          | zero => exact le_of_lt (lt_of_lt_of_le hlt (not_lt.mp hd))
          | succ j' =>
            have hj' : j' < ts.length := by simpa using hj
            exact hmin j' hj'
        · intro j hj hjk
          cases j with
          | zero => exact lt_of_lt_of_le hlt (not_lt.mp hd)
          | succ j' =>
            have hj' : j' < ts.length := by simpa using hj
            exact hstrict j' hj' (by omega)

lemma qLoopUnpruned_go (pp : List Qp) :
    ∀ (ts : List QTemplate) (tb : QTemplate),
      (qLoopUnpruned pp ts (some (tb, cloudMatchUnpruned pp tb)) =
          some (tb, cloudMatchUnpruned pp tb) ∧
        ∀ a ∈ ts, cloudMatchUnpruned pp tb ≤ cloudMatchUnpruned pp a) ∨
      (∃ k, ∃ hk : k < ts.length,
        qLoopUnpruned pp ts (some (tb, cloudMatchUnpruned pp tb)) =
          some (ts.get ⟨k, hk⟩, cloudMatchUnpruned pp (ts.get ⟨k, hk⟩)) ∧
        cloudMatchUnpruned pp (ts.get ⟨k, hk⟩) < cloudMatchUnpruned pp tb ∧
        (∀ j (hj : j < ts.length), cloudMatchUnpruned pp (ts.get ⟨k, hk⟩) ≤
          cloudMatchUnpruned pp (ts.get ⟨j, hj⟩)) ∧
        (∀ j (hj : j < ts.length), j < k → cloudMatchUnpruned pp (ts.get ⟨k, hk⟩) <
          cloudMatchUnpruned pp (ts.get ⟨j, hj⟩))) := by
  intro ts
  induction ts with
  | nil =>
    intro tb
    left
    exact ⟨rfl, by simp⟩
  | cons a ts ih =>
    intro tb
    by_cases hd : cloudMatchUnpruned pp a < cloudMatchUnpruned pp tb
    · have hstep : qLoopUnpruned pp (a :: ts) (some (tb, cloudMatchUnpruned pp tb)) =
          qLoopUnpruned pp ts (some (a, cloudMatchUnpruned pp a)) := by
        simp only [qLoopUnpruned]
        rw [if_pos hd]
      rcases ih a with ⟨heq, hall⟩ | ⟨k, hk, heq, hlt, hmin, hstrict⟩
      · right
        refine ⟨0, by simp, by rw [hstep, heq]; rfl, hd, ?_, ?_⟩
        · intro j hj
          cases j with
          | zero => exact le_refl _
          | succ j' =>
            have hj' : j' < ts.length := by simpa using hj
            exact hall _ (List.get_mem ts j' hj')
        · intro j hj hj0
          omega
      · right
        refine ⟨k + 1, by simpa using hk, by rw [hstep, heq]; rfl, lt_trans hlt hd, ?_, ?_⟩
        · intro j hj
          cases j with
          | zero => exact le_of_lt hlt
          | succ j' =>
            have hj' : j' < ts.length := by simpa using hj
            exact hmin j' hj'
        · intro j hj hjk
          cases j with
          | zero => exact hlt
          | succ j' =>
            have hj' : j' < ts.length := by simpa using hj
            exact hstrict j' hj' (by omega)
    · have hstep : qLoopUnpruned pp (a :: ts) (some (tb, cloudMatchUnpruned pp tb)) =
          qLoopUnpruned pp ts (some (tb, cloudMatchUnpruned pp tb)) := by
        simp only [qLoopUnpruned]
        rw [if_neg hd]
      rcases ih tb with ⟨heq, hall⟩ | ⟨k, hk, heq, hlt, hmin, hstrict⟩
      · left
        refine ⟨by rw [hstep, heq], ?_⟩
        intro b hb
        rcases List.mem_cons.mp hb with rfl | hb
        · exact not_lt.mp hd
        · exact hall b hb
      · right
        refine ⟨k + 1, by simpa using hk, by rw [hstep, heq]; rfl, hlt, ?_, ?_⟩
        · intro j hj
          cases j with
          | zero => exact le_of_lt (lt_of_lt_of_le hlt (not_lt.mp hd))
          | succ j' =>
            have hj' : j' < ts.length := by simpa using hj
            exact hmin j' hj'
        · intro j hj hjk
          cases j with
          | zero => exact lt_of_lt_of_le hlt (not_lt.mp hd)
          | succ j' =>
            have hj' : j' < ts.length := by simpa using hj
            exact hstrict j' hj' (by omega)

/-- C5: on a nonempty template store, `check` returns the name of a template
whose computed distance to the candidate is minimal over the whole store, and
among templates attaining the minimum the one registered (evaluated) first is
returned: the returned index `i` satisfies `d i ≤ d j` for every `j` and
`d i < d j` for every `j < i`.  First conjunct: onedollar.js with the
best-angle distance; second conjunct: qdollar.js with the greedy cloud
distance (by the pruning equivalence, the minimum of the full distances). -/
theorem c5_first_minimum_selected :
    (∀ (ts : List OneTemplate) (points : List Pt), ts ≠ [] →
      ∃ i, ∃ hi : i < ts.length,
        oneDollarCheck ts points =
          some ⟨(ts.get ⟨i, hi⟩).Name,
            max (1 - oneTemplateDistance points (ts.get ⟨i, hi⟩) / HalfDiagonal) 0⟩ ∧
        (∀ j (hj : j < ts.length), oneTemplateDistance points (ts.get ⟨i, hi⟩) ≤
          oneTemplateDistance points (ts.get ⟨j, hj⟩)) ∧
        (∀ j (hj : j < ts.length), j < i → oneTemplateDistance points (ts.get ⟨i, hi⟩) <
          oneTemplateDistance points (ts.get ⟨j, hj⟩))) ∧
    (∀ (ts : List QTemplate) (points : List Qp), ts ≠ [] →
      ∃ i, ∃ hi : i < ts.length,
        (qDollarCheck ts points).name = (ts.get ⟨i, hi⟩).Name ∧
        (∀ j (hj : j < ts.length), qTemplateDistance points (ts.get ⟨i, hi⟩) ≤
          qTemplateDistance points (ts.get ⟨j, hj⟩)) ∧
        (∀ j (hj : j < ts.length), j < i → qTemplateDistance points (ts.get ⟨i, hi⟩) <
          qTemplateDistance points (ts.get ⟨j, hj⟩))) := by
  constructor
  · intro ts points hne
    cases ts with
    | nil => exact absurd rfl hne
    | cons t0 rest =>
      have h0 : oneLoop (oneNormalize points) (t0 :: rest) 0 (none, 0) =
          oneLoop (oneNormalize points) rest 1
            (some (distanceAtBestAngle (oneNormalize points) t0 (-45) 45 2), 0) := rfl
      rcases oneLoop_go (oneNormalize points) rest 1 0
          (distanceAtBestAngle (oneNormalize points) t0 (-45) 45 2) with
        ⟨heq, hall⟩ | ⟨k, hk, heq, hlt, hmin, hstrict⟩
      · refine ⟨0, by simp, ?_, ?_, ?_⟩
        · simp only [oneDollarCheck]
          rw [h0, heq]
          rfl
        · intro j hj
          cases j with
          | zero => exact le_refl _
          | succ j' =>
            have hj' : j' < rest.length := by simpa using hj
            exact hall _ (List.get_mem rest j' hj')
        · intro j hj hj0
          omega
      · refine ⟨k + 1, by simpa using hk, ?_, ?_, ?_⟩
        · simp only [oneDollarCheck]
          rw [h0, heq]
          have hg : (t0 :: rest).get? (1 + k) = some (rest.get ⟨k, hk⟩) := by
            rw [Nat.add_comm, List.get?_cons_succ, List.get?_eq_get hk]
          rw [hg]
          rfl
        · intro j hj
          cases j with
          | zero => exact le_of_lt hlt
          | succ j' =>
            have hj' : j' < rest.length := by simpa using hj
            exact hmin j' hj'
        · intro j hj hjk
          cases j with
          | zero => exact hlt
          | succ j' =>
            have hj' : j' < rest.length := by simpa using hj
            exact hstrict j' hj' (by omega)
  · intro ts points hne
    cases ts with
    | nil => exact absurd rfl hne
    | cons t0 rest =>
      have h0 : qLoopUnpruned (qNormalize points) (t0 :: rest) none =
          qLoopUnpruned (qNormalize points) rest
            (some (t0, cloudMatchUnpruned (qNormalize points) t0)) := rfl
      rcases qLoopUnpruned_go (qNormalize points) rest t0 with
        ⟨heq, hall⟩ | ⟨k, hk, heq, hlt, hmin, hstrict⟩
      · refine ⟨0, by simp, ?_, ?_, ?_⟩
        · simp only [qDollarCheck]
          rw [qLoop_eq_unpruned, h0, heq]
          rfl
        · intro j hj
          cases j with
          | zero => exact le_refl _
          | succ j' =>
            have hj' : j' < rest.length := by simpa using hj
            exact hall _ (List.get_mem rest j' hj')
        · intro j hj hj0
          omega
      · refine ⟨k + 1, by simpa using hk, ?_, ?_, ?_⟩
        · simp only [qDollarCheck]
          rw [qLoop_eq_unpruned, h0, heq]
          rfl
        · intro j hj
          cases j with
          | zero => exact le_of_lt hlt
          | succ j' =>
            have hj' : j' < rest.length := by simpa using hj
            exact hmin j' hj'
        · intro j hj hjk
          cases j with
          | zero => exact hlt
          | succ j' =>
            have hj' : j' < rest.length := by simpa using hj
            exact hstrict j' hj' (by omega)

/-- Witness for `c5_first_minimum_selected` on concrete singleton template
stores. -/
theorem c5_first_minimum_selected_witness :
    (∃ i, ∃ hi : i < ([⟨"only", [], []⟩] : List OneTemplate).length,
      oneDollarCheck [⟨"only", [], []⟩] [⟨0, 1⟩] =
        some ⟨((([⟨"only", [], []⟩] : List OneTemplate)).get ⟨i, hi⟩).Name,
          max (1 - oneTemplateDistance [⟨0, 1⟩]
            (([⟨"only", [], []⟩] : List OneTemplate).get ⟨i, hi⟩) / HalfDiagonal) 0⟩ ∧
      (∀ j (hj : j < ([⟨"only", [], []⟩] : List OneTemplate).length),
        oneTemplateDistance [⟨0, 1⟩] (([⟨"only", [], []⟩] : List OneTemplate).get ⟨i, hi⟩) ≤
          oneTemplateDistance [⟨0, 1⟩] (([⟨"only", [], []⟩] : List OneTemplate).get ⟨j, hj⟩)) ∧
      (∀ j (hj : j < ([⟨"only", [], []⟩] : List OneTemplate).length), j < i →
        oneTemplateDistance [⟨0, 1⟩] (([⟨"only", [], []⟩] : List OneTemplate).get ⟨i, hi⟩) <
          oneTemplateDistance [⟨0, 1⟩] (([⟨"only", [], []⟩] : List OneTemplate).get ⟨j, hj⟩))) ∧
    (∃ i, ∃ hi : i < ([⟨"q", []⟩] : List QTemplate).length,
      (qDollarCheck [⟨"q", []⟩] [⟨0, 1, 1⟩]).name =
        (([⟨"q", []⟩] : List QTemplate).get ⟨i, hi⟩).Name ∧
      (∀ j (hj : j < ([⟨"q", []⟩] : List QTemplate).length),
        qTemplateDistance [⟨0, 1, 1⟩] (([⟨"q", []⟩] : List QTemplate).get ⟨i, hi⟩) ≤
          qTemplateDistance [⟨0, 1, 1⟩] (([⟨"q", []⟩] : List QTemplate).get ⟨j, hj⟩)) ∧
      (∀ j (hj : j < ([⟨"q", []⟩] : List QTemplate).length), j < i →
        qTemplateDistance [⟨0, 1, 1⟩] (([⟨"q", []⟩] : List QTemplate).get ⟨i, hi⟩) <
          qTemplateDistance [⟨0, 1, 1⟩] (([⟨"q", []⟩] : List QTemplate).get ⟨j, hj⟩))) :=
  ⟨c5_first_minimum_selected.1 [⟨"only", [], []⟩] [⟨0, 1⟩] (by simp),
   c5_first_minimum_selected.2 [⟨"q", []⟩] [⟨0, 1, 1⟩] (by simp)⟩

/-! ### C6: termination and contract of the golden-section search -/

lemma phi_identity : Phi * Phi + Phi = 1 := by
  have h5 : Real.sqrt 5 * Real.sqrt 5 = 5 := Real.mul_self_sqrt (by norm_num)
  unfold Phi
  linear_combination (1/4 : ℝ) * h5

lemma phi_nonneg : 0 ≤ Phi := by
  have h1 : (1:ℝ) ≤ Real.sqrt 5 := by
    rw [show (1:ℝ) = Real.sqrt 1 from (Real.sqrt_one).symm]
    exact Real.sqrt_le_sqrt (by norm_num)
  unfold Phi
  linarith

lemma phi_lt_one : Phi < 1 := by
  have h3 : Real.sqrt 5 < 3 := by
    rw [show (3:ℝ) = Real.sqrt 9 from by
      rw [show (9:ℝ) = 3 ^ 2 from by norm_num, Real.sqrt_sq (by norm_num : (0:ℝ) ≤ 3)]]
    exact Real.sqrt_lt_sqrt (by norm_num) (by norm_num)
  unfold Phi
  linarith

lemma gssStep_wf (f : ℝ → ℝ) (s : GssState) (h : GssWF f s) : GssWF f (gssStep f s) := by
  obtain ⟨h1, h2, h3, h4⟩ := h
  unfold gssStep GssWF
  by_cases h12 : s.f1 < s.f2
  · rw [if_pos h12]
    refine ⟨rfl, ?_, rfl, ?_⟩
    · show s.x1 = (1 - Phi) * s.a + Phi * s.x2
      rw [h1, h2]
      linear_combination (s.a - s.b) * phi_identity
    · show s.f1 = f s.x1
      exact h3
  · rw [if_neg h12]
    refine ⟨?_, rfl, ?_, rfl⟩
    · show s.x2 = Phi * s.x1 + (1 - Phi) * s.b
      rw [h1, h2]
      linear_combination (s.b - s.a) * phi_identity
    · show s.f2 = f s.x2
      exact h4

lemma gssStep_width (f : ℝ → ℝ) (s : GssState) (h : GssWF f s) :
    (gssStep f s).b - (gssStep f s).a = Phi * (s.b - s.a) := by
  obtain ⟨h1, h2, h3, h4⟩ := h
  unfold gssStep
  by_cases h12 : s.f1 < s.f2
  · rw [if_pos h12]
    show s.x2 - s.a = Phi * (s.b - s.a)
    rw [h2]
    ring
  · rw [if_neg h12]
    show s.b - s.x1 = Phi * (s.b - s.a)
    rw [h1]
    ring

lemma gssStep_evals (f : ℝ → ℝ) (s : GssState) : (gssStep f s).evals = s.evals + 1 := by
  unfold gssStep
  split <;> rfl

lemma gssGo_succeeds (f : ℝ → ℝ) (t : ℝ) :
    ∀ (N : ℕ) (s : GssState), GssWF f s → Phi ^ N * |s.b - s.a| ≤ t →
      ∃ s2, gssGo f t N s = some s2 ∧ |s2.b - s2.a| ≤ t ∧ GssWF f s2 := by
  intro N
  induction N with
  | zero =>
    intro s hwf hb
    simp only [pow_zero, one_mul] at hb
    exact ⟨s, by simp [gssGo, hb], hb, hwf⟩
  | succ N ih =>
    intro s hwf hb
    by_cases hst : |s.b - s.a| ≤ t
    · exact ⟨s, by simp [gssGo, hst], hst, hwf⟩
    · have hwf2 := gssStep_wf f s hwf
      have hw : |(gssStep f s).b - (gssStep f s).a| = Phi * |s.b - s.a| := by
        rw [gssStep_width f s hwf, abs_mul, abs_of_nonneg phi_nonneg]
      have hb2 : Phi ^ N * |(gssStep f s).b - (gssStep f s).a| ≤ t := by
        rw [hw, ← mul_assoc, ← pow_succ]
        exact hb
      obtain ⟨s2, hgo, hs2, hwfs2⟩ := ih (gssStep f s) hwf2 hb2
      exact ⟨s2, by simp [gssGo, hst, hgo], hs2, hwfs2⟩

/-- C6: for every candidate, template, bracket and positive precision,
`_distanceAtBestAngle` terminates — the bracket's signed width is multiplied
by exactly the golden-ratio factor `Phi` each iteration (first conjunct),
with exactly one new objective evaluation per iteration (second conjunct),
so some finite number `N` of iterations reaches the stopping condition
`|b - a| ≤ precision` — and the value it then returns is the minimum of the
two last-evaluated objective values. -/
theorem c6_golden_section_search (points : List Pt) (T : OneTemplate) (a b precision : ℝ)
    (hp : 0 < precision) :
    (∀ s : GssState, GssWF (distanceAtAngle points T) s →
      (gssStep (distanceAtAngle points T) s).b - (gssStep (distanceAtAngle points T) s).a =
        Phi * (s.b - s.a) ∧
      (gssStep (distanceAtAngle points T) s).evals = s.evals + 1) ∧
    ∃ N s2, gssGo (distanceAtAngle points T) precision N
        (gssInit (distanceAtAngle points T) a b) = some s2 ∧
      |s2.b - s2.a| ≤ precision ∧
      s2.f1 = distanceAtAngle points T s2.x1 ∧ s2.f2 = distanceAtAngle points T s2.x2 ∧
      distanceAtBestAngleFuel points T a b precision N = some (min s2.f1 s2.f2) := by
  constructor
  · intro s hwf
    exact ⟨gssStep_width _ s hwf, gssStep_evals _ s⟩
  · have hwf0 : GssWF (distanceAtAngle points T) (gssInit (distanceAtAngle points T) a b) :=
      ⟨rfl, rfl, rfl, rfl⟩
    have hw0 : 0 ≤ |(gssInit (distanceAtAngle points T) a b).b -
        (gssInit (distanceAtAngle points T) a b).a| := abs_nonneg _
    have hN : ∃ N : ℕ, Phi ^ N * |(gssInit (distanceAtAngle points T) a b).b -
        (gssInit (distanceAtAngle points T) a b).a| ≤ precision := by
      rcases lt_or_eq_of_le hw0 with hw | hw
      · obtain ⟨N, hNlt⟩ := exists_pow_lt_of_lt_one (div_pos hp hw) phi_lt_one
        exact ⟨N, le_of_lt ((lt_div_iff₀ hw).mp hNlt)⟩
      · exact ⟨0, by rw [← hw, mul_zero]; exact le_of_lt hp⟩
    obtain ⟨N, hN⟩ := hN
    obtain ⟨s2, hgo, hs2, hwfs2⟩ :=
      gssGo_succeeds (distanceAtAngle points T) precision N
        (gssInit (distanceAtAngle points T) a b) hwf0 hN
    refine ⟨N, s2, hgo, hs2, hwfs2.2.2.1, hwfs2.2.2.2, ?_⟩
    unfold distanceAtBestAngleFuel
    rw [hgo]
    rfl

/-- Witness for `c6_golden_section_search` at the bracket and precision that
`check` uses (±45°, 2°). -/
theorem c6_golden_section_search_witness :
    (∀ s : GssState, GssWF (distanceAtAngle [] ⟨"w", [], []⟩) s →
      (gssStep (distanceAtAngle [] ⟨"w", [], []⟩) s).b -
          (gssStep (distanceAtAngle [] ⟨"w", [], []⟩) s).a = Phi * (s.b - s.a) ∧
      (gssStep (distanceAtAngle [] ⟨"w", [], []⟩) s).evals = s.evals + 1) ∧
    ∃ N s2, gssGo (distanceAtAngle [] ⟨"w", [], []⟩) 2 N
        (gssInit (distanceAtAngle [] ⟨"w", [], []⟩) (-45) 45) = some s2 ∧
      |s2.b - s2.a| ≤ 2 ∧
      s2.f1 = distanceAtAngle [] ⟨"w", [], []⟩ s2.x1 ∧
      s2.f2 = distanceAtAngle [] ⟨"w", [], []⟩ s2.x2 ∧
      distanceAtBestAngleFuel [] ⟨"w", [], []⟩ (-45) 45 2 N = some (min s2.f1 s2.f2) :=
  c6_golden_section_search [] ⟨"w", [], []⟩ (-45) 45 2 (by norm_num)
